import Mathlib

/-!
Verification development for `nwgrep` (grep-style row filtering over
dataframes).  The Python source (`src/nwgrep/core.py`, `accessor.py`) is
shallowly embedded below:

* Python strings are modelled as `Str := List Char`;
* a narwhals/polars boolean expression evaluated on one row is an
  `Option Bool` (`none` = null), combined with Kleene logic;
* a dataframe is a `Frame` (schema plus rows of optional string cells);
* a narwhals `LazyFrame` is a `LazyQ`: a source frame plus a list of
  not-yet-executed filter steps; `collectQ` materializes it;
* the backend regex engine (Python `re` / Rust `regex`, which agree on the
  fragment used here) is modelled by a small regex AST `Rx`, a parser
  `parseRx` and a matcher `searchRx`.
-/

namespace Nwgrep

/-- A Python string, modelled as its list of characters. -/
abbrev Str := List Char

/-- Lowercase a string character-wise: model of Python `str.lower` /
polars `str.to_lowercase` on the ASCII fragment. -/
def strLower (s : Str) : Str := s.map Char.toLower

/-! ## Model of the backend regex engine

`core.py` hands pattern strings to the backend via
`expr.str.contains(pattern, literal=False)` and, on the highlighting path,
to Python `re.search` (optionally with `re.IGNORECASE`).  The fragment of
regex syntax exercised here is: literal characters, `.`, escape classes
`\w \W \d \D \s \S`, word boundaries `\b \B`, anchors `^ $`, alternation
`|`, groups `(...)` and `(?:...)`, and escaped literals such as `\.`.
Patterns outside the fragment fail to parse and match nothing. -/

/-- Regex abstract syntax for the fragment used by the program. -/
inductive Rx where
  | eps : Rx
  | ch (c : Char) : Rx
  | dot : Rx
  | wcls (neg : Bool) : Rx
  | dcls (neg : Bool) : Rx
  | scls (neg : Bool) : Rx
  | bol : Rx
  | eol : Rx
  | wb : Rx
  | nwb : Rx
  | seq (a b : Rx) : Rx
  | alt (a b : Rx) : Rx
  deriving DecidableEq, Repr

/-- Word character (`\w`), ASCII model: alphanumeric or underscore. -/
def isWordChar (c : Char) : Bool := c.isAlphanum || c == '_'

/-- Whitespace character (`\s`), ASCII model. -/
def isSpaceChar (c : Char) : Bool :=
  c == ' ' || c == '\t' || c == '\n' || c == '\r' || c == '\x0b' || c == '\x0c'

/-- Character comparison: case-insensitive (`ci = true`, as under the
inline `re.IGNORECASE` flag) or exact. -/
def charMatch (ci : Bool) (c d : Char) : Bool :=
  if ci then c.toLower == d.toLower else c == d

/-- Is the character at index `i` of `s` (if any) a word character? -/
def wordAt (s : Str) (i : Nat) : Bool :=
  match s[i]? with
  | some c => isWordChar c
  | none => false

/-- Word boundary (`\b`) at position `i` of `s`: the word-ness of the
previous character differs from that of the current one. -/
def isBoundary (s : Str) (i : Nat) : Bool :=
  (if i = 0 then false else wordAt s (i - 1)) != wordAt s i

/-- Continuation-style regex matcher: does `r` match the text `s` starting
at position `i`, with `k` accepting the end position?  `ci` selects
case-insensitive character comparison (the inline-flag semantics). -/
def mrx (ci : Bool) : Rx → Str → Nat → (Nat → Bool) → Bool
  | .eps, _, i, k => k i
  | .ch c, s, i, k =>
    match s[i]? with
    | some d => charMatch ci c d && k (i + 1)
    | none => false
  | .dot, s, i, k =>
    match s[i]? with
    | some d => d != '\n' && k (i + 1)
    | none => false
  | .wcls neg, s, i, k =>
    match s[i]? with
    | some d => (isWordChar d != neg) && k (i + 1)
    | none => false
  | .dcls neg, s, i, k =>
    match s[i]? with
    | some d => (d.isDigit != neg) && k (i + 1)
    | none => false
  | .scls neg, s, i, k =>
    match s[i]? with
    | some d => (isSpaceChar d != neg) && k (i + 1)
    | none => false
  | .bol, _, i, k => (i == 0) && k i
  | .eol, s, i, k => (i == s.length) && k i
  | .wb, s, i, k => isBoundary s i && k i
  | .nwb, s, i, k => !isBoundary s i && k i
  | .seq a b, s, i, k => mrx ci a s i (fun j => mrx ci b s j k)
  | .alt a b, s, i, k => mrx ci a s i k || mrx ci b s i k

/-- Unanchored search (`re.search` / contains-match): `r` matches at some
start position of `s`. -/
def searchRx (ci : Bool) (r : Rx) (s : Str) : Bool :=
  (List.range (s.length + 1)).any fun i => mrx ci r s i fun _ => true

/-- Regex metacharacters of the modelled fragment. -/
def isMeta (c : Char) : Bool :=
  c == '^' || c == '$' || c == '.' || c == '\\' || c == '|' || c == '(' ||
  c == ')' || c == '*' || c == '+' || c == '?' || c == '[' || c == ']' ||
  c == '{' || c == '}'

/-- Meaning of an escape `\c`.  Alphanumeric escapes outside the known
classes are rejected (as Python `re` rejects e.g. `\q`); escaped
punctuation is the literal character. -/
def escRx (c : Char) : Option Rx :=
  if c == 'w' then some (.wcls false)
  else if c == 'W' then some (.wcls true)
  else if c == 'd' then some (.dcls false)
  else if c == 'D' then some (.dcls true)
  else if c == 's' then some (.scls false)
  else if c == 'S' then some (.scls true)
  else if c == 'b' then some .wb
  else if c == 'B' then some .nwb
  else if c.isAlphanum then none
  else some (.ch c)

mutual

/-- Parse one atom (anchor, class, escaped or plain character, group). -/
def parseAtom : Nat → Str → Option (Rx × Str)
  | 0, _ => none
  | _ + 1, [] => none
  | fuel + 1, c :: t =>
    if c == '^' then some (.bol, t)
    else if c == '$' then some (.eol, t)
    else if c == '.' then some (.dot, t)
    else if c == '\\' then
      match t with
      | [] => none
      | e :: t2 => (escRx e).map fun r => (r, t2)
    else if c == '(' then
      match t with
      | '?' :: ':' :: t2 =>
        match parseAlt fuel t2 with
        | some (r, ')' :: t3) => some (r, t3)
        | _ => none
      | _ =>
        match parseAlt fuel t with
        | some (r, ')' :: t3) => some (r, t3)
        | _ => none
    else if isMeta c then none
    else some (.ch c, t)

/-- Parse a concatenation of atoms, stopping at `|`, `)` or end. -/
def parseSeq : Nat → Str → Option (Rx × Str)
  | 0, _ => none
  | _ + 1, [] => some (.eps, [])
  | fuel + 1, c :: t =>
    if c == '|' || c == ')' then some (.eps, c :: t)
    else
      match parseAtom fuel (c :: t) with
      | none => none
      | some (a, rest) =>
        match parseSeq fuel rest with
        | none => none
        | some (r, rest2) => some (.seq a r, rest2)

/-- Parse an alternation of concatenations. -/
def parseAlt : Nat → Str → Option (Rx × Str)
  | 0, _ => none
  | fuel + 1, s =>
    match parseSeq fuel s with
    | none => none
    | some (r, '|' :: t) =>
      match parseAlt fuel t with
      | none => none
      | some (r2, rest) => some (.alt r r2, rest)
    | some (r, rest) => some (r, rest)

end

/-- Parse a whole pattern string; the pattern must be consumed entirely. -/
def parseRx (pat : Str) : Option Rx :=
  match parseAlt (4 * pat.length + 8) pat with
  | some (r, []) => some r
  | _ => none

/-- Regex containment test, as performed by the backend engines for
`str.contains(pat, literal=False)` (`ci = false`) and by Python
`re.search(pat, s, re.IGNORECASE)` (`ci = true`).  An unparseable pattern
matches nothing (the real engines raise; the claims below are insensitive
to this choice). -/
def rxSearch (ci : Bool) (pat : Str) (s : Str) : Bool :=
  match parseRx pat with
  | some r => searchRx ci r s
  | none => false

/-- Literal-character match of `l` against `s` starting at position `i`
(all of `l` must be present). -/
def litHere (ci : Bool) (l : Str) (s : Str) (i : Nat) : Bool :=
  match l with
  | [] => true
  | c :: l' =>
    match s[i]? with
    | some d => charMatch ci c d && litHere ci l' s (i + 1)
    | none => false

/-- Literal substring containment: Python `pat in s` and
`str.contains(pat, literal=True)`. -/
def containsLit (pat : Str) (s : Str) : Bool :=
  (List.range (s.length + 1)).any fun i => litHere false pat s i

/-- The regex denoting the literal character sequence `l` followed by a
tail regex `t` (the shape `parseSeq` produces on metacharacter-free
input); used to characterize the parser in the proofs below. -/
def seqOfT (l : Str) (t : Rx) : Rx := l.foldr (fun c r => .seq (.ch c) r) t

/-- The regex denoting exactly the literal character sequence `l`. -/
def seqOf (l : Str) : Rx := seqOfT l .eps

/-! ## Kleene (three-valued) boolean algebra of narwhals expressions

A boolean column expression evaluated at one row yields `Option Bool`
(`none` = null).  `&`, `~` follow Kleene logic;
`any_horizontal(..., ignore_nulls=True)` skips nulls and is `false` on an
empty or all-null input. -/

/-- Kleene conjunction (`&` on boolean expressions). -/
def kand : Option Bool → Option Bool → Option Bool
  | some false, _ => some false
  | _, some false => some false
  | some true, some true => some true
  | _, _ => none

/-- Kleene negation (`~`). -/
def knot : Option Bool → Option Bool
  | some b => some (!b)
  | none => none

/-- `nw.any_horizontal(*exprs, ignore_nulls=True)` at one row. -/
def anyH (l : List (Option Bool)) : Option Bool :=
  some (l.any fun v => v == some true)

/-! ## Dataframe model -/

/-- Declared column type, as classified by `_get_search_columns`. -/
inductive DType where
  | string : DType
  | categorical : DType
  | other : DType
  deriving DecidableEq, Repr

/-- One row: one optional string cell per schema column, in schema order.
(Cells of non-string columns are irrelevant to the search; their textual
view is modelled as an optional string as well.) -/
abbrev Row := List (Option Str)

/-- An eager table: schema (column name, declared type) plus rows. -/
structure Frame where
  schema : List (String × DType)
  rows : List Row
  deriving DecidableEq, Repr

/-- The cell of `row` in column `c` (by schema position); a missing column
behaves as null (the real backend raises a schema error there — no claim
below exercises that path). -/
def getCell (f : Frame) (row : Row) (c : String) : Option Str :=
  match f.schema.findIdx? (fun p => p.1 == c) with
  | some i => (row[i]?).getD none
  | none => none

/-- `_get_search_columns` (core.py): the explicit column list if non-empty
(Python truthiness: `if columns:`), else all string-like columns. -/
def _get_search_columns (f : Frame) (columns : Option (List String)) :
    List String :=
  match columns with
  | some cs => if cs.isEmpty then stringLikeColumns f else cs
  | none => stringLikeColumns f
where
  /-- All columns whose declared dtype is `String` or `Categorical`. -/
  stringLikeColumns (f : Frame) : List String :=
    f.schema.filterMap fun p =>
      if p.2 = DType.string ∨ p.2 = DType.categorical then some p.1 else none

/-! ## Expression compiler (`_build_*` in core.py)

A narwhals string expression is embedded by its value at one row, an
`Option Str`; the compiled predicates are its `Option Bool` images. -/

/-- `expr.str.contains(pat, literal=...)`: null in, null out. -/
def nwContains (v : Option Str) (pat : Str) (literalFlag : Bool) :
    Option Bool :=
  v.map fun s => if literalFlag then containsLit pat s else rxSearch false pat s

/-- `expr.str.to_lowercase()`: null in, null out. -/
def nwToLower (v : Option Str) : Option Str := v.map strLower

/-- `_build_exact_match` (core.py:40-55): anchored regex (`f"^{pat}$"`)
when `regex`, else equality; case-insensitivity by lowercasing both
sides. -/
def _build_exact_match (v : Option Str) (pat : Str)
    (case_sensitive regex : Bool) : Option Bool :=
  if regex then
    let anchored : Str := '^' :: pat ++ ['$']
    if case_sensitive then nwContains v anchored false
    else nwContains (nwToLower v) (strLower anchored) false
  else if case_sensitive then v.map fun s => s == pat
  else (nwToLower v).map fun s => s == strLower pat

/-- `_build_regex_match` (core.py:58-62): contains-match; when
case-insensitive, both the cell and the pattern string are lowercased. -/
def _build_regex_match (v : Option Str) (pat : Str) (case_sensitive : Bool) :
    Option Bool :=
  if case_sensitive then nwContains v pat false
  else nwContains (nwToLower v) (strLower pat) false

/-- `_build_literal_match` (core.py:65-69). -/
def _build_literal_match (v : Option Str) (pat : Str)
    (case_sensitive : Bool) : Option Bool :=
  if case_sensitive then nwContains v pat true
  else nwContains (nwToLower v) (strLower pat) true

/-- `_build_column_match` (core.py:29-37). -/
def _build_column_match (v : Option Str) (pat : Str)
    (case_sensitive regex exact : Bool) : Option Bool :=
  if exact then _build_exact_match v pat case_sensitive regex
  else if regex then _build_regex_match v pat case_sensitive
  else _build_literal_match v pat case_sensitive

/-- One `match & ~null_check` conjunct of `_build_match_expr`
(core.py:85-91), for column `c` at `row`. -/
def colMatchExpr (f : Frame) (pat : Str) (c : String)
    (case_sensitive regex exact : Bool) (row : Row) : Option Bool :=
  let v := getCell f row c
  kand (_build_column_match v pat case_sensitive regex exact)
    (knot (some v.isNone))

/-- The per-pattern expression of `_build_match_expr` (core.py:94):
`nw.any_horizontal(*col_matches, ignore_nulls=True)`. -/
def patternMatchExpr (f : Frame) (search_cols : List String) (pat : Str)
    (case_sensitive regex exact : Bool) (row : Row) : Option Bool :=
  anyH (search_cols.map fun c => colMatchExpr f pat c case_sensitive regex exact row)

/-- `_build_match_expr` (core.py:72-95): one expression per pattern
(appended only when there was at least one column conjunct). -/
def _build_match_expr (f : Frame) (search_cols : List String)
    (patterns : List Str) (case_sensitive regex exact : Bool) :
    List (Row → Option Bool) :=
  patterns.filterMap fun pat =>
    if search_cols.isEmpty then none
    else some (patternMatchExpr f search_cols pat case_sensitive regex exact)

/-! ## Deferred queries and the filter steps `nwgrep` attaches -/

/-- The match configuration a filter step carries. -/
structure MatchCfg where
  cols : List String
  pats : List Str
  cs : Bool
  rx : Bool
  ex : Bool
  deriving DecidableEq, Repr

/-- One deferred transformation: `filter(nw.lit(b))` or a (possibly
inverted) pattern-match filter. -/
inductive FilterStep where
  | litFilter (b : Bool) : FilterStep
  | matchFilter (cfg : MatchCfg) (inverted : Bool) : FilterStep
  deriving DecidableEq, Repr

/-- The final row predicate of `nwgrep` (core.py:346-350): the single
expression when there is exactly one pattern, else `any_horizontal` over
the per-pattern expressions. -/
def finalMatch (cfg : MatchCfg) (f : Frame) (row : Row) : Option Bool :=
  match _build_match_expr f cfg.cols cfg.pats cfg.cs cfg.rx cfg.ex with
  | [] => some false
  | [e] => e row
  | es => anyH (es.map fun e => e row)

/-- Execute one filter step against a materialized frame; `filter` keeps
the rows whose mask is `true` (a null mask drops the row). -/
def evalStep (st : FilterStep) (f : Frame) : Frame :=
  match st with
  | .litFilter b => ⟨f.schema, f.rows.filter fun _ => b⟩
  | .matchFilter cfg inverted =>
    ⟨f.schema, f.rows.filter fun row =>
      (if inverted then knot (finalMatch cfg f row)
       else finalMatch cfg f row) == some true⟩

/-- A narwhals `LazyFrame`: a source frame plus not-yet-executed filter
steps. -/
structure LazyQ where
  src : Frame
  steps : List FilterStep
  deriving DecidableEq, Repr

/-- `LazyFrame.collect()`: execute the deferred steps in order. -/
def collectQ (q : LazyQ) : Frame :=
  q.steps.foldl (fun f st => evalStep st f) q.src

/-! ## Orchestrator (`nwgrep` in core.py) -/

/-- Dataframe backend, as detected by `_detect_backend` (core.py:98-105)
from the native object's module name. -/
inductive Backend where
  | pandas : Backend
  | polars : Backend
  | other : Backend
  deriving DecidableEq, Repr

/-- The input handed to `nwgrep`: its laziness class, whether it is
already narwhals-wrapped (vs backend-native), its backend, and its data. -/
structure NwInput where
  isLazy : Bool
  isNarwhals : Bool
  backend : Backend
  frame : Frame
  deriving DecidableEq, Repr

/-- A narwhals value: a deferred query or an eager table. -/
inductive NwValue where
  | lazyF (q : LazyQ) : NwValue
  | eagerF (t : Frame) : NwValue
  deriving DecidableEq, Repr

/-- What `nwgrep` can return: a (native or wrapped) frame, an integer row
count, or a highlighting-renderer output (backend, materialized data, and
the per-column boolean cell mask). -/
inductive GrepOutput where
  | frame (isNativeOut : Bool) (v : NwValue) : GrepOutput
  | countOut (n : Nat) : GrepOutput
  | rendered (b : Backend) (data : Frame) (mask : List (String × List Bool)) :
      GrepOutput
  deriving DecidableEq, Repr

/-- The errors `nwgrep`/the accessor raise. -/
inductive GrepError where
  | valueError (msg : String) : GrepError
  deriving DecidableEq, Repr

/-- `_cell_matches_pattern` (core.py:139-163): null never matches; regex
mode uses Python `re.search` with `re.IGNORECASE` when case-insensitive;
literal mode uses (lowercased) substring containment. -/
def _cell_matches_pattern (v : Option Str) (patterns : List Str)
    (case_sensitive regex : Bool) : Bool :=
  match v with
  | none => false
  | some s =>
    patterns.any fun pat =>
      if regex then rxSearch (!case_sensitive) pat s
      else if case_sensitive then containsLit pat s
      else containsLit (strLower pat) (strLower s)

/-- `_get_matching_cells` (core.py:108-136): a boolean mask for EVERY
column of the materialized frame. -/
def _get_matching_cells (t : Frame) (patterns : List Str)
    (case_sensitive regex : Bool) : List (String × List Bool) :=
  t.schema.map fun p =>
    (p.1, t.rows.map fun row =>
      _cell_matches_pattern (getCell t row p.1) patterns case_sensitive regex)

/-- `nw.to_native(result if result_is_lazy else result.collect(),
pass_through=True)` (core.py:328-330, 382-384): the narwhals result is
always unwrapped to a backend-native object. -/
def toNativeReturn (result_is_lazy : Bool) (result : LazyQ) : GrepOutput :=
  .frame true (if result_is_lazy then .lazyF result
               else .eagerF (collectQ result))

/-- The whole-word pattern transform of core.py:334: `rf"\b{pat}\b"`
(no regex-escaping of `pat`). -/
def wrapWord (p : Str) : Str := '\\' :: 'b' :: p ++ ['\\', 'b']

/-- `nwgrep` (core.py:243-384).  Boolean arguments, in order:
`case_sensitive`, `regex`, `invert`, `whole_word`, `count`, `exact`,
`highlight`. -/
def nwgrep (df : NwInput) (patterns0 : List Str)
    (columns : Option (List String))
    (case_sensitive regex0 invert whole_word count exact highlight : Bool) :
    Except GrepError GrepOutput :=
  let result_is_lazy := df.isLazy
  let search_cols := _get_search_columns df.frame columns
  if search_cols.isEmpty then
    -- core.py:325-330: early return BEFORE the count/highlight branches
    .ok (toNativeReturn result_is_lazy ⟨df.frame, [.litFilter invert]⟩)
  else
    let patterns := if whole_word then patterns0.map wrapWord else patterns0
    let regex := if whole_word then true else regex0
    let result : LazyQ :=
      if patterns.isEmpty then ⟨df.frame, [.litFilter invert]⟩
      else ⟨df.frame,
            [.matchFilter ⟨search_cols, patterns, case_sensitive, regex, exact⟩
              invert]⟩
    if count then
      if highlight then
        .error (.valueError "highlight and count parameters are incompatible")
      else .ok (.countOut (collectQ result).rows.length)
    else if highlight then
      let collected := collectQ result
      match df.backend with
      | .other =>
        .error (.valueError "Highlighting not supported for backend: unsupported")
      | b =>
        .ok (.rendered b collected
          (_get_matching_cells collected patterns case_sensitive regex))
    else
      .ok (toNativeReturn result_is_lazy result)

/-- `GrepAccessor.__call__` (accessor.py:15-72): rejects
`fixed_strings` + `whole_word` before touching the data, resolves the
final regex mode (`fixed_strings` > `whole_word` > `regex`), then calls
`nwgrep` (with `highlight=False`; the accessor exposes no highlight
flag).  Boolean arguments, in order: `case_sensitive`, `regex`,
`fixed_strings`, `invert`, `whole_word`, `count`, `exact`. -/
def grepAccessorCall (df : NwInput) (patterns : List Str)
    (columns : Option (List String))
    (case_sensitive regex fixed_strings invert whole_word count exact : Bool) :
    Except GrepError GrepOutput :=
  if fixed_strings && whole_word then
    .error (.valueError
      "-F/--fixed-strings and -w/--whole-word are incompatible. Whole-word matching requires regex boundaries.")
  else
    let final_regex := if fixed_strings then false
                       else if whole_word then true else regex
    nwgrep df patterns columns case_sensitive final_regex invert whole_word
      count exact false

/-- The materialized rows of a frame-returning `nwgrep` result (collecting
a deferred result; other outcomes have no rows). -/
def matRowsE (r : Except GrepError GrepOutput) : List Row :=
  match r with
  | .ok (.frame _ (.lazyF q)) => (collectQ q).rows
  | .ok (.frame _ (.eagerF t)) => t.rows
  | _ => []

/-! ## Definitions modelled from the spec (for refinement comparisons) -/

/-- Modelled from the spec: case-insensitive regex matching of the
ORIGINAL pattern "via an inline regex flag (not by lowercasing the
pattern string)" — i.e. `re.IGNORECASE`-style matching. -/
def regexInsensitiveSpec (pat : Str) (s : Str) : Bool := rxSearch true pat s

/-- Python `re.escape` (modelled): every character that is not an ASCII
alphanumeric or underscore is preceded by a backslash. -/
def reEscape (p : Str) : Str :=
  p.flatMap fun c => if c.isAlphanum || c == '_' then [c] else ['\\', c]

/-- Modelled from the spec: the whole-word transform "each pattern is
regex-escaped and then wrapped in word-boundary anchors as
`\b<escaped>\b`". -/
def wholeWordSpecTransform (p : Str) : Str := wrapWord (reEscape p)

/-- Modelled from the spec: the exact-anchored-regex pattern
"`^(?:pattern)$`" — the pattern anchored as a unit. -/
def exactAnchoredSpec (pat : Str) : Str :=
  '^' :: '(' :: '?' :: ':' :: pat ++ [')', '$']

/-- The deferred query a non-counting, non-highlighting `nwgrep` call
builds and returns (the common part of the three `result = ...`
assignments in core.py:325-356), factored out for the proofs below. -/
def builtQuery (f : Frame) (pats0 : List Str) (cols : Option (List String))
    (cs rx0 inv ww ex : Bool) : LazyQ :=
  if (_get_search_columns f cols).isEmpty then ⟨f, [.litFilter inv]⟩
  else
    let pats := if ww then pats0.map wrapWord else pats0
    let rx := if ww then true else rx0
    if pats.isEmpty then ⟨f, [.litFilter inv]⟩
    else ⟨f, [.matchFilter ⟨_get_search_columns f cols, pats, cs, rx, ex⟩ inv]⟩

/-! ## Concrete instances used by counterexamples and witnesses -/

/-- A frame with a single non-string column (no searchable columns). -/
def noStringColFrame : Frame := ⟨[("n", .other)], [[some ['1']]]⟩

/-- A one-column frame whose only cell is `"axc"`. -/
def axcFrame : Frame := ⟨[("text", .string)], [[some ['a', 'x', 'c']]]⟩

/-- A one-column frame whose only cell is `"ax"`. -/
def axFrame : Frame := ⟨[("col", .string)], [[some ['a', 'x']]]⟩

/-- A two-string-column frame: `a = "foo"`, `b = "xfoox"`. -/
def twoColFrame : Frame :=
  ⟨[("a", .string), ("b", .string)],
   [[some ['f', 'o', 'o'], some ['x', 'f', 'o', 'o', 'x']]]⟩

/-- A one-string-column frame whose only row is null. -/
def nullRowFrame : Frame := ⟨[("name", .string)], [[none]]⟩

end Nwgrep

namespace Nwgrep

/-! ## Claim theorems -/

/-- C1 (counterexample): at pattern `\W` and cell `"a"`, the compiled
case-insensitive regex predicate holds (the code lowercases the pattern,
turning `\W` into `\w`), yet the original pattern does NOT
case-insensitively match the cell under the inline-flag semantics — so
the predicate is not "pattern case-insensitively regex-matches the cell"
for every pattern. -/
theorem regex_ci_lowercasing_diverges_from_flag :
    _build_regex_match (some ['a']) ['\\', 'W'] false = some true ∧
      regexInsensitiveSpec ['\\', 'W'] ['a'] = false := by
  constructor <;> rfl

/-- C2 (evaluation at the failing input): on a frame with no string-like
columns, `nwgrep` with `count=True` and `highlight=True` neither raises
the incompatibility error nor returns an integer count: the early return
of core.py:325-330 yields a (filtered) dataframe, contradicting the
documented `count=True -> int` contract. -/
theorem count_bypassed_when_no_searchable_columns :
    nwgrep ⟨false, false, .pandas, noStringColFrame⟩ [['x']] none
        true false false false true false true =
      .ok (.frame true (.eagerF ⟨[("n", DType.other)], []⟩)) := by
  rfl

/-- C8 (evaluation at the failing input): a narwhals-wrapped
(`isNarwhals = true`) lazy input with `count=False`, `highlight=False`
comes back as a backend-NATIVE object (`nw.to_native` is applied
unconditionally), so the wrapped-vs-native class is not preserved — while
the result is indeed still a deferred, unexecuted query (`.lazyF` with
its filter step unapplied). -/
theorem wrapped_lazy_input_returned_native_lazy :
    nwgrep ⟨true, true, .polars, axFrame⟩ [['a', 'x']] none
        true false false false false false false =
      .ok (.frame true (.lazyF ⟨axFrame,
        [.matchFilter ⟨["col"], [['a', 'x']], true, false, false⟩ false]⟩)) := by
  rfl

/-- C9: the accessor layer rejects `fixed_strings=True` together with
`whole_word=True` with a configuration `ValueError`, for every input
frame and every other flag setting — the error is raised before `nwgrep`
(and hence any data access) is reached, never silently resolved. -/
theorem accessor_rejects_fixed_strings_whole_word
    (df : NwInput) (pats : List Str) (cols : Option (List String))
    (cs rx inv cnt ex : Bool) :
    grepAccessorCall df pats cols cs rx true inv true cnt ex =
      .error (.valueError
        "-F/--fixed-strings and -w/--whole-word are incompatible. Whole-word matching requires regex boundaries.") :=
  rfl

/-- C4 (counterexample): with `whole_word=True` the pattern `"a.c"` (which
contains the regex metacharacter `.`) matches the cell `"axc"` — the code
does NOT regex-escape the pattern before wrapping it in `\b` anchors,
whereas the escaped-then-wrapped pattern of the claim does not match
`"axc"`. -/
theorem whole_word_metachar_pattern_not_literal :
    matRowsE (nwgrep ⟨false, false, .pandas, axcFrame⟩ [['a', '.', 'c']] none
        true false false true false false false) = [[some ['a', 'x', 'c']]] ∧
      rxSearch false (wholeWordSpecTransform ['a', '.', 'c'])
        ['a', 'x', 'c'] = false := by
  constructor <;> rfl

/-- C4 (amended): with `whole_word=True`, each pattern is wrapped as
`\b<pattern>\b` WITHOUT regex-escaping and regex mode is forced on: the
call behaves exactly like the call on the wrapped patterns with
`regex=True` and `whole_word=False`, so regex metacharacters keep their
regex meaning. -/
theorem whole_word_transform_unescaped (df : NwInput) (pats : List Str)
    (cols : Option (List String)) (cs rx inv cnt ex hl : Bool) :
    nwgrep df pats cols cs rx inv true cnt ex hl =
      nwgrep df (pats.map wrapWord) cols cs true inv false cnt ex hl :=
  rfl

/-- C5 (counterexample): with `exact=True, regex=True`, the pattern
`"a|b"` matches the cell `"ax"` (the code anchors textually as `^a|b$`,
so the alternation escapes the anchors), whereas the claim's
`^(?:a|b)$` — the pattern anchored as a unit — does not match `"ax"`. -/
theorem exact_regex_alternation_escapes_anchors :
    matRowsE (nwgrep ⟨false, false, .pandas, axFrame⟩ [['a', '|', 'b']] none
        true true false false false true false) = [[some ['a', 'x']]] ∧
      rxSearch false (exactAnchoredSpec ['a', '|', 'b']) ['a', 'x'] = false := by
  constructor <;> rfl

/-- C10 (counterexample): a highlighting call that resolved
`columns=["a"]` for filtering still highlights the matching cell of
column `"b"`: the renderer dispatched by `nwgrep` (core.py:379) receives
neither the resolved columns nor the `exact` flag and recomputes matches
over ALL columns. -/
theorem highlight_marks_non_search_column :
    nwgrep ⟨false, false, .pandas, twoColFrame⟩ [['f', 'o', 'o']]
        (some ["a"]) true false false false false false true =
      .ok (.rendered .pandas twoColFrame [("a", [true]), ("b", [true])]) := by
  rfl

end Nwgrep

namespace Nwgrep

/-! ## Auxiliary lemmas -/

/-- Both return shapes of `toNativeReturn` materialize to the same rows. -/
theorem matRowsE_toNative (b : Bool) (q : LazyQ) :
    matRowsE (.ok (toNativeReturn b q)) = (collectQ q).rows := by
  cases b <;> rfl

/-- A non-counting, non-highlighting `nwgrep` call returns exactly the
built deferred query (natively, collected when the input was eager). -/
theorem nwgrep_eq_built (df : NwInput) (pats : List Str)
    (cols : Option (List String)) (cs rx inv ww ex : Bool) :
    nwgrep df pats cols cs rx inv ww false ex false =
      .ok (toNativeReturn df.isLazy
        (builtQuery df.frame pats cols cs rx inv ww ex)) := by
  by_cases h1 : (_get_search_columns df.frame cols).isEmpty
  · simp [nwgrep, builtQuery, h1]
  · by_cases h2 : (if ww then pats.map wrapWord else pats).isEmpty
    · simp [nwgrep, builtQuery, h1, h2]
    · simp [nwgrep, builtQuery, h1, h2]

/-- The materialized rows of a non-counting, non-highlighting call. -/
theorem matRows_nwgrep (df : NwInput) (pats : List Str)
    (cols : Option (List String)) (cs rx inv ww ex : Bool) :
    matRowsE (nwgrep df pats cols cs rx inv ww false ex false) =
      (collectQ (builtQuery df.frame pats cols cs rx inv ww ex)).rows := by
  rw [nwgrep_eq_built, matRowsE_toNative]

theorem length_filter_add_length_filter_not (l : List α) (p : α → Bool) :
    (l.filter p).length + (l.filter fun a => !(p a)).length = l.length := by
  induction l with
  | nil => rfl
  | cons a l ih =>
    cases h : p a <;> simp [List.filter_cons, h] <;> omega

/-- Every member of `_build_match_expr` is a per-pattern expression. -/
theorem mem_build_match_expr {f : Frame} {cols : List String}
    {pats : List Str} {cs rx ex : Bool} {e : Row → Option Bool}
    (he : e ∈ _build_match_expr f cols pats cs rx ex) :
    ∃ pat, pat ∈ pats ∧ e = patternMatchExpr f cols pat cs rx ex := by
  rcases List.mem_filterMap.mp he with ⟨pat, hp, hpat⟩
  by_cases hc : cols.isEmpty <;> simp [hc] at hpat
  exact ⟨pat, hp, hpat.symm⟩

/-- The assembled row predicate is never null: each `match & ~null_check`
conjunct forces nulls to `false`, and `any_horizontal` of those is a
total boolean. -/
theorem finalMatch_isSome (cfg : MatchCfg) (f : Frame) (row : Row) :
    (finalMatch cfg f row).isSome := by
  cases h : _build_match_expr f cfg.cols cfg.pats cfg.cs cfg.rx cfg.ex with
  | nil => simp [finalMatch, h]
  | cons e es =>
    cases es with
    | nil =>
      rcases mem_build_match_expr
          (e := e) (by rw [h]; exact List.mem_singleton.mpr rfl) with
        ⟨pat, _, he⟩
      simp [finalMatch, h, he, patternMatchExpr, anyH]
    | cons e2 es2 => simp [finalMatch, h, anyH]

/-- Filtering by a total `Option Bool` mask and by its Kleene negation
partitions the rows. -/
theorem filter_beq_partition (l : List Row) (g : Row → Option Bool)
    (hg : ∀ row, (g row).isSome) :
    (l.filter fun row => knot (g row) == some true).length +
      (l.filter fun row => g row == some true).length = l.length := by
  have hcong : (l.filter fun row => knot (g row) == some true) =
      (l.filter fun row => !(g row == some true)) := by
    apply List.filter_congr
    intro row _
    rcases Option.isSome_iff_exists.mp (hg row) with ⟨b, hb⟩
    rw [hb]; cases b <;> rfl
  rw [hcong, Nat.add_comm]
  exact length_filter_add_length_filter_not l fun row => g row == some true

/-- One inverted plus one non-inverted match filter partition the rows. -/
theorem evalStep_match_partition (cfg : MatchCfg) (f : Frame) :
    ((evalStep (.matchFilter cfg true) f).rows).length +
      ((evalStep (.matchFilter cfg false) f).rows).length =
      f.rows.length := by
  simp only [evalStep]
  exact filter_beq_partition f.rows (finalMatch cfg f) (finalMatch_isSome cfg f)

/-- With a non-empty column list, matching two patterns is the
disjunction of matching each alone. -/
theorem finalMatch_pair (f : Frame) (cols : List String) (q1 q2 : Str)
    (cs rx ex : Bool) (row : Row) (h : cols.isEmpty = false) :
    (finalMatch ⟨cols, [q1, q2], cs, rx, ex⟩ f row == some true) =
      ((finalMatch ⟨cols, [q1], cs, rx, ex⟩ f row == some true) ||
        (finalMatch ⟨cols, [q2], cs, rx, ex⟩ f row == some true)) := by
  simp [finalMatch, _build_match_expr, h, anyH]

/-- A null cell makes its `match & ~null_check` conjunct `false`. -/
theorem colMatchExpr_null (f : Frame) (pat : Str) (c : String)
    (cs rx ex : Bool) (row : Row) (h : getCell f row c = none) :
    colMatchExpr f pat c cs rx ex row = some false := by
  cases cs <;> cases rx <;> cases ex <;>
    simp [colMatchExpr, h, _build_column_match, _build_exact_match,
      _build_regex_match, _build_literal_match, nwContains, nwToLower,
      kand, knot]

/-- If every searched cell of a row is null, no pattern matches it. -/
theorem patternMatchExpr_null (f : Frame) (cols : List String) (pat : Str)
    (cs rx ex : Bool) (row : Row)
    (h : ∀ c ∈ cols, getCell f row c = none) :
    patternMatchExpr f cols pat cs rx ex row = some false := by
  simp only [patternMatchExpr, anyH, Option.some.injEq]
  rw [List.any_eq_false]
  intro x hx
  rcases List.mem_map.mp hx with ⟨c, hc, hce⟩
  rw [← hce, colMatchExpr_null f pat c cs rx ex row (h c hc)]
  decide

/-- The assembled predicate is `false` on an all-null row. -/
theorem finalMatch_null (cfg : MatchCfg) (f : Frame) (row : Row)
    (h : ∀ c ∈ cfg.cols, getCell f row c = none) :
    finalMatch cfg f row = some false := by
  have hall : ∀ e' ∈ _build_match_expr f cfg.cols cfg.pats cfg.cs cfg.rx cfg.ex,
      e' row = some false := by
    intro e' he'
    rcases mem_build_match_expr he' with ⟨pat, _, hpe⟩
    rw [hpe]
    exact patternMatchExpr_null f cfg.cols pat cfg.cs cfg.rx cfg.ex row h
  cases hb : _build_match_expr f cfg.cols cfg.pats cfg.cs cfg.rx cfg.ex with
  | nil => simp [finalMatch, hb]
  | cons e es =>
    rw [hb] at hall
    cases es with
    | nil => simp [finalMatch, hb, hall e (List.mem_singleton.mpr rfl)]
    | cons e2 es2 =>
      simp only [finalMatch, hb, anyH, Option.some.injEq]
      rw [List.any_eq_false]
      intro x hx
      rcases List.mem_map.mp hx with ⟨e', he', hxe⟩
      rw [← hxe, hall e' he']
      decide

end Nwgrep

namespace Nwgrep

/-! ## Parser characterization on metacharacter-free patterns -/

/-- A non-metacharacter parses as a literal-character atom. -/
theorem parseAtom_plain (c : Char) (t : Str) (f : Nat)
    (h : isMeta c = false) : parseAtom (f + 1) (c :: t) = some (.ch c, t) := by
  simp only [isMeta, Bool.or_eq_false_iff] at h
  obtain ⟨⟨⟨⟨⟨⟨⟨⟨⟨⟨⟨⟨⟨h1, h2⟩, h3⟩, h4⟩, h5⟩, h6⟩, h7⟩, h8⟩, h9⟩, h10⟩,
    h11⟩, h12⟩, h13⟩, h14⟩ := h
  simp [parseAtom, h1, h2, h3, h4, h5, h6, isMeta,
    h7, h8, h9, h10, h11, h12, h13, h14]

/-- A metacharacter-free pattern parses as its literal sequence. -/
theorem parseSeq_plain (l : Str) (f : Nat)
    (h : ∀ c ∈ l, isMeta c = false) (hf : l.length + 1 ≤ f) :
    parseSeq f l = some (seqOf l, []) := by
  induction l generalizing f with
  | nil =>
    obtain ⟨f', rfl⟩ : ∃ k, f = k + 1 := ⟨f - 1, by omega⟩
    rfl
  | cons c l ih =>
    obtain ⟨f', rfl⟩ : ∃ k, f = k + 1 := ⟨f - 1, by omega⟩
    have hc := h c (List.mem_cons_self c l)
    have hpipe : (c == '|') = false := by
      simp only [isMeta, Bool.or_eq_false_iff] at hc
      exact hc.1.1.1.1.1.1.1.1.1.2
    have hparen : (c == ')') = false := by
      simp only [isMeta, Bool.or_eq_false_iff] at hc
      exact hc.1.1.1.1.1.1.1.2
    obtain ⟨f'', rfl⟩ : ∃ k, f' = k + 1 := ⟨f' - 1, by simp at hf; omega⟩
    simp only [parseSeq, hpipe, hparen, Bool.or_self, Bool.false_eq_true,
      if_false, parseAtom_plain c l f'' hc]
    rw [ih (f'' + 1) (fun d hd => h d (List.mem_cons_of_mem c hd))
      (by simp at hf; omega)]
    rfl

/-- The same, with the pattern followed by a `$` anchor. -/
theorem parseSeq_plain_dollar (l : Str) (f : Nat)
    (h : ∀ c ∈ l, isMeta c = false) (hf : l.length + 3 ≤ f) :
    parseSeq f (l ++ ['$']) = some (seqOfT l (.seq .eol .eps), []) := by
  induction l generalizing f with
  | nil =>
    obtain ⟨f', rfl⟩ : ∃ k, f = k + 1 := ⟨f - 1, by omega⟩
    obtain ⟨f'', rfl⟩ : ∃ k, f' = k + 1 := ⟨f' - 1, by omega⟩
    obtain ⟨f3, rfl⟩ : ∃ k, f'' = k + 1 := ⟨f'' - 1, by omega⟩
    rfl
  | cons c l ih =>
    obtain ⟨f', rfl⟩ : ∃ k, f = k + 1 := ⟨f - 1, by omega⟩
    have hc := h c (List.mem_cons_self c l)
    have hpipe : (c == '|') = false := by
      simp only [isMeta, Bool.or_eq_false_iff] at hc
      exact hc.1.1.1.1.1.1.1.1.1.2
    have hparen : (c == ')') = false := by
      simp only [isMeta, Bool.or_eq_false_iff] at hc
      exact hc.1.1.1.1.1.1.1.2
    obtain ⟨f'', rfl⟩ : ∃ k, f' = k + 1 := ⟨f' - 1, by simp at hf; omega⟩
    simp only [List.cons_append, parseSeq, hpipe, hparen, Bool.or_self,
      Bool.false_eq_true, if_false, List.append_eq]
    simp only [parseAtom_plain c (l ++ ['$']) f'' hc]
    simp only [ih (f'' + 1) (fun d hd => h d (List.mem_cons_of_mem c hd))
      (by simp at hf; omega)]
    rfl

/-- An alternation-free full parse lifts from `parseSeq` to `parseAlt`. -/
theorem parseAlt_of_parseSeq (l : Str) (f : Nat) (r : Rx)
    (h : parseSeq f l = some (r, [])) :
    parseAlt (f + 1) l = some (r, []) := by
  simp [parseAlt, h]

/-- `parseRx` on a metacharacter-free pattern. -/
theorem parseRx_plain (l : Str) (h : ∀ c ∈ l, isMeta c = false) :
    parseRx l = some (seqOf l) := by
  have h4 : 4 * l.length + 8 = (4 * l.length + 7) + 1 := by omega
  rw [parseRx, h4,
    parseAlt_of_parseSeq l _ _ (parseSeq_plain l _ h (by omega))]

/-- Prepending a `^` anchor to a parsed sequence. -/
theorem parseSeq_caret (t : Str) (f : Nat) (r : Rx)
    (h : parseSeq (f + 1) t = some (r, [])) :
    parseSeq (f + 1 + 1) ('^' :: t) = some (.seq .bol r, []) := by
  have hstop : (('^' == '|') || ('^' == ')')) = false := rfl
  have hatom : parseAtom (f + 1) ('^' :: t) = some (.bol, t) := rfl
  rw [parseSeq, hstop]
  simp only [Bool.false_eq_true, if_false]
  rw [hatom]
  simp only [h]

/-- `parseRx` on `^pat$` for metacharacter-free `pat`: both anchors and
the literal sequence, in order. -/
theorem parseRx_anchored_plain (l : Str) (h : ∀ c ∈ l, isMeta c = false) :
    parseRx ('^' :: l ++ ['$']) =
      some (.seq .bol (seqOfT l (.seq .eol .eps))) := by
  have hlen : ('^' :: l ++ ['$']).length = l.length + 2 := by simp
  have hseq : parseSeq (4 * (l.length + 2) + 7) ('^' :: l ++ ['$']) =
      some (.seq .bol (seqOfT l (.seq .eol .eps)), []) := by
    have hf : 4 * (l.length + 2) + 7 = (4 * (l.length + 2) + 5) + 1 + 1 := by
      omega
    rw [hf]
    exact parseSeq_caret _ _ _ (parseSeq_plain_dollar l _ h (by omega))
  rw [parseRx, hlen]
  have h4 : 4 * (l.length + 2) + 8 = (4 * (l.length + 2) + 7) + 1 := by omega
  rw [h4, parseAlt_of_parseSeq _ _ _ hseq]

/-! ## Matcher characterization on literal sequences -/

theorem charMatch_false (c d : Char) : charMatch false c d = (c == d) := rfl

/-- Matching a literal sequence followed by a tail regex. -/
theorem mrx_seqOfT (ci : Bool) (l : Str) (t : Rx) (s : Str) (i : Nat)
    (k : Nat → Bool) :
    mrx ci (seqOfT l t) s i k =
      (litHere ci l s i && mrx ci t s (i + l.length) k) := by
  induction l generalizing i with
  | nil => simp [seqOfT, litHere]
  | cons c l ih =>
    show mrx ci (.seq (.ch c) (seqOfT l t)) s i k = _
    rw [litHere]
    cases hsi : s[i]? with
    | none => simp [mrx, hsi]
    | some d =>
      simp [mrx, hsi, ih (i + 1), Bool.and_assoc, Nat.add_assoc,
        Nat.add_comm 1 l.length]

/-- Lowercasing both the literal pattern and the text is the same as
case-insensitive matching of the original pattern. -/
theorem litHere_lower (l s : Str) (i : Nat) :
    litHere false (strLower l) (strLower s) i = litHere true l s i := by
  induction l generalizing i with
  | nil => rfl
  | cons c l ih =>
    show litHere false (Char.toLower c :: strLower l) (strLower s) i = _
    rw [litHere, litHere]
    have hmap : (strLower s)[i]? = (s[i]?).map Char.toLower := by
      simp [strLower, List.getElem?_map]
    rw [hmap]
    cases hsi : s[i]? with
    | none => rfl
    | some d => simp [charMatch, ih (i + 1)]

theorem litHere_cons_succ (ci : Bool) (l : Str) (d : Char) (s' : Str)
    (i : Nat) : litHere ci l (d :: s') (i + 1) = litHere ci l s' i := by
  induction l generalizing i with
  | nil => rfl
  | cons c l ih =>
    rw [litHere, litHere, List.getElem?_cons_succ]
    cases s'[i]? with
    | none => rfl
    | some e => rw [ih (i + 1)]

/-- A full-length literal match at position 0 is string equality. -/
theorem litHere_zero_iff (l s : Str) :
    (litHere false l s 0 && (l.length == s.length)) = true ↔ s = l := by
  induction l generalizing s with
  | nil => cases s <;> simp [litHere]
  | cons c l ih =>
    cases s with
    | nil => simp [litHere]
    | cons d s' =>
      rw [litHere]
      simp only [List.getElem?_cons_zero, litHere_cons_succ, charMatch_false]
      have ihs := ih s'
      simp only [Bool.and_eq_true, beq_iff_eq] at ihs ⊢
      simp only [List.length_cons, List.cons.injEq]
      constructor
      · rintro ⟨⟨hcd, hlit⟩, hlen⟩
        exact ⟨hcd.symm, ihs.mp ⟨hlit, by omega⟩⟩
      · rintro ⟨hdc, hs⟩
        obtain ⟨hlit, hlen⟩ := ihs.mpr hs
        exact ⟨⟨hdc.symm, hlit⟩, by omega⟩

theorem litHere_full_eq (l s : Str) :
    (litHere false l s 0 && (l.length == s.length)) = (s == l) := by
  rw [Bool.eq_iff_iff, litHere_zero_iff]
  simp

/-- A search whose body requires position 0 collapses to that position. -/
theorem any_range_head (n : Nat) (g : Nat → Bool) :
    ((List.range (n + 1)).any fun i => (i == 0) && g i) = g 0 := by
  rw [List.range_succ_eq_map]
  simp [List.any_map, Function.comp_def]

/-- Searching for a literal sequence is searching for a literal match at
some position. -/
theorem searchRx_seqOf (ci : Bool) (l s : Str) :
    searchRx ci (seqOf l) s =
      (List.range (s.length + 1)).any fun i => litHere ci l s i := by
  rw [searchRx]
  congr 1
  funext i
  rw [seqOf] at *
  rw [mrx_seqOfT]
  simp [mrx]

end Nwgrep

namespace Nwgrep

/-! ## Remaining claim theorems -/

/-- C3: a row whose searched cells are all null is never in the
non-inverted result — every atomic `(pattern, column)` predicate is
conjoined with the cell being non-null, in every mode (literal, regex,
exact, exact-regex), case-sensitivity, and whole-word setting. -/
theorem null_cells_never_match (df : NwInput) (pats : List Str)
    (cols : Option (List String)) (cs rx ww ex : Bool) (row : Row)
    (h : ∀ c ∈ _get_search_columns df.frame cols,
        getCell df.frame row c = none) :
    row ∉ matRowsE (nwgrep df pats cols cs rx false ww false ex false) := by
  rw [matRows_nwgrep]
  by_cases h1 : (_get_search_columns df.frame cols).isEmpty
  · simp [builtQuery, h1, collectQ, evalStep]
  · by_cases h2 : (if ww then pats.map wrapWord else pats).isEmpty
    · simp [builtQuery, h1, h2, collectQ, evalStep]
    · simp [builtQuery, h1, h2, collectQ, evalStep, List.mem_filter]
      intro _
      rw [finalMatch_null ⟨_get_search_columns df.frame cols,
          if ww then List.map wrapWord pats else pats, cs, ww || rx, ex⟩
          df.frame row h]
      simp

/-- C3 witness: on a one-string-column frame whose only row is null, the
hypothesis holds and the null row is excluded. -/
theorem null_cells_never_match_witness :
    (∀ c ∈ _get_search_columns nullRowFrame none,
        getCell nullRowFrame [none] c = none) ∧
    [none] ∉ matRowsE (nwgrep ⟨false, false, .pandas, nullRowFrame⟩ [['a']]
      none true false false false false false false) :=
  ⟨by decide, null_cells_never_match ⟨false, false, .pandas, nullRowFrame⟩
    [['a']] none true false false false [none] (by decide)⟩

/-- C6: with count/highlight off and all other flags held equal, the
inverted and non-inverted calls partition the input rows: their row
counts sum to the input row count, for every frame, pattern list, and
flag setting (the assembled mask is null-free, so each row lands on
exactly one side). -/
theorem invert_partitions_rows (df : NwInput) (pats : List Str)
    (cols : Option (List String)) (cs rx ww ex : Bool) :
    (matRowsE (nwgrep df pats cols cs rx true ww false ex false)).length +
      (matRowsE (nwgrep df pats cols cs rx false ww false ex false)).length =
      df.frame.rows.length := by
  rw [matRows_nwgrep, matRows_nwgrep]
  by_cases h1 : (_get_search_columns df.frame cols).isEmpty
  · simp [builtQuery, h1, collectQ, evalStep]
  · by_cases h2 : (if ww then pats.map wrapWord else pats).isEmpty
    · simp [builtQuery, h1, h2, collectQ, evalStep]
    · simpa [builtQuery, h1, h2, collectQ] using
        evalStep_match_partition
          ⟨_get_search_columns df.frame cols,
            if ww then pats.map wrapWord else pats, cs,
            if ww then true else rx, ex⟩ df.frame

/-- C7: a two-pattern call returns exactly the union of the two
single-pattern calls' row sets — multi-pattern search is pure
disjunction (OR across patterns), never conjunction. -/
theorem multi_pattern_or_union (df : NwInput) (p1 p2 : Str)
    (cols : Option (List String)) (cs rx ww ex : Bool) (r : Row) :
    r ∈ matRowsE (nwgrep df [p1, p2] cols cs rx false ww false ex false) ↔
      r ∈ matRowsE (nwgrep df [p1] cols cs rx false ww false ex false) ∨
      r ∈ matRowsE (nwgrep df [p2] cols cs rx false ww false ex false) := by
  rw [matRows_nwgrep, matRows_nwgrep, matRows_nwgrep]
  by_cases h1 : (_get_search_columns df.frame cols).isEmpty
  · simp [builtQuery, h1, collectQ, evalStep]
  · have h1' : (_get_search_columns df.frame cols).isEmpty = false := by
      simpa using h1
    cases ww <;>
      · simp [builtQuery, h1', collectQ, evalStep, List.mem_filter,
          finalMatch_pair df.frame (_get_search_columns df.frame cols)
            _ _ cs _ ex r h1']
        tauto

/-- C1 (amended): with `regex=True, exact=False, case_sensitive=False`,
the predicate lowercases both the cell and the pattern string (not an
inline flag).  For patterns made of plain literal characters (no regex
metacharacters, before and after lowercasing) this coincides with
case-insensitive inline-flag matching of the original pattern; the
counterexample `\W` shows it is not the case for every pattern. -/
theorem regex_ci_plain_agrees (pat s : Str)
    (h : ∀ c ∈ pat, isMeta c = false)
    (h2 : ∀ c ∈ strLower pat, isMeta c = false) :
    _build_regex_match (some s) pat false =
      some (regexInsensitiveSpec pat s) := by
  have hL : rxSearch false (strLower pat) (strLower s) = rxSearch true pat s := by
    rw [rxSearch, rxSearch]
    simp only [parseRx_plain _ h2, parseRx_plain _ h]
    rw [searchRx_seqOf, searchRx_seqOf]
    have hlen : (strLower s).length = s.length := by simp [strLower]
    rw [hlen]
    congr 1
    funext i
    exact litHere_lower pat s i
  simp [_build_regex_match, nwContains, nwToLower, hL, regexInsensitiveSpec]

/-- C1 witness: at the plain pattern `"Ab"` and cell `"aB"` the lowered
predicate and the inline-flag semantics agree. -/
theorem regex_ci_plain_agrees_witness :
    (∀ c ∈ (['A', 'b'] : Str), isMeta c = false) ∧
    (∀ c ∈ strLower ['A', 'b'], isMeta c = false) ∧
    _build_regex_match (some ['a', 'B']) ['A', 'b'] false =
      some (regexInsensitiveSpec ['A', 'b'] ['a', 'B']) :=
  ⟨by decide, by decide,
    regex_ci_plain_agrees ['A', 'b'] ['a', 'B'] (by decide) (by decide)⟩

/-- C5 (amended): with `exact=True, regex=True` the anchors are appended
textually (`^pattern$`), so a top-level alternation escapes them (see the
counterexample) and case-insensitivity is again by lowercasing; for
patterns made of plain literal characters the predicate does require the
entire cell to match — it is exactly string equality. -/
theorem exact_regex_plain_is_equality (pat s : Str)
    (h : ∀ c ∈ pat, isMeta c = false) :
    _build_exact_match (some s) pat true true = some (s == pat) := by
  have hx : rxSearch false ('^' :: pat ++ ['$']) s = (s == pat) := by
    rw [rxSearch]
    simp only [parseRx_anchored_plain pat h]
    rw [searchRx]
    have hbody : (fun i => mrx false (.seq .bol (seqOfT pat (.seq .eol .eps)))
        s i fun _ => true) =
        (fun i => (i == 0) && (litHere false pat s i &&
          ((i + pat.length) == s.length))) := by
      funext i
      simp only [mrx, mrx_seqOfT]
      simp [mrx]
    rw [hbody, any_range_head]
    rw [Nat.zero_add, litHere_full_eq]
  simp only [List.cons_append] at hx
  simp [_build_exact_match, nwContains, hx]

/-- C5 witness: the plain pattern `"ok"` under exact+regex equals the cell
`"ok"` and the predicate agrees with string equality. -/
theorem exact_regex_plain_is_equality_witness :
    (∀ c ∈ (['o', 'k'] : Str), isMeta c = false) ∧
    _build_exact_match (some ['o', 'k']) ['o', 'k'] true true =
      some ((['o', 'k'] : Str) == ['o', 'k']) :=
  ⟨by decide,
    exact_regex_plain_is_equality ['o', 'k'] ['o', 'k'] (by decide)⟩

/-- C10 (amended): a highlighting call materializes the filtered result
and hands the renderer the same (whole-word-transformed) patterns and the
`case_sensitive`/`regex` flags — but NOT the resolved columns nor the
`exact` flag: the mask is recomputed by `_get_matching_cells` with its own
cell matcher over EVERY column of the materialized frame (second
conjunct), so cells outside the resolved search columns can be
highlighted. -/
theorem highlight_all_columns_own_matcher (df : NwInput) (pats : List Str)
    (cols : Option (List String)) (cs rx inv ex : Bool)
    (h1 : (_get_search_columns df.frame cols).isEmpty = false)
    (h2 : pats.isEmpty = false) (h3 : df.backend ≠ .other) :
    nwgrep df pats cols cs rx inv false false ex true =
      .ok (.rendered df.backend
        (collectQ ⟨df.frame, [.matchFilter
          ⟨_get_search_columns df.frame cols, pats, cs, rx, ex⟩ inv]⟩)
        (_get_matching_cells
          (collectQ ⟨df.frame, [.matchFilter
            ⟨_get_search_columns df.frame cols, pats, cs, rx, ex⟩ inv]⟩)
          pats cs rx)) ∧
      (_get_matching_cells
          (collectQ ⟨df.frame, [.matchFilter
            ⟨_get_search_columns df.frame cols, pats, cs, rx, ex⟩ inv]⟩)
          pats cs rx).map Prod.fst =
        (collectQ ⟨df.frame, [.matchFilter
          ⟨_get_search_columns df.frame cols, pats, cs, rx, ex⟩ inv]⟩).schema.map
          Prod.fst := by
  constructor
  · cases hb : df.backend with
    | other => exact absurd hb h3
    | pandas => simp [nwgrep, h1, h2, hb]
    | polars => simp [nwgrep, h1, h2, hb]
  · simp [_get_matching_cells, List.map_map, Function.comp_def]

/-- C10 witness: the concrete two-column highlight call of the
counterexample, obtained by instantiating the amended theorem. -/
theorem highlight_all_columns_own_matcher_witness :
    nwgrep ⟨false, false, .pandas, twoColFrame⟩ [['f', 'o', 'o']]
        (some ["a"]) true false false false false false true =
      .ok (.rendered .pandas twoColFrame [("a", [true]), ("b", [true])]) :=
  ((highlight_all_columns_own_matcher ⟨false, false, .pandas, twoColFrame⟩
      [['f', 'o', 'o']] (some ["a"]) true false false false rfl rfl
      (by decide)).1).trans (by rfl)

end Nwgrep
